import Mathlib

/-
Verification development for the vididoo timeline-composition engine.

The definitions below are shallow embeddings of the TypeScript source:
JavaScript numbers are modelled as exact rationals (ℚ), JS `NaN` that can
flow into pointer coordinates is modelled as `Option ℚ` with `none` playing
the role of `NaN` (the only place the source inspects `NaN` is
`clampNumber`, which maps it to the lower bound), fallible functions return
`Except String`, and the engine loops become structural recursion over
lists of samples/clips.
-/

/- ## Rect / interaction model (crop tool, src/unnamed/part_001) -/

/- `NormalizedRect` from the crop tool: a rect in normalized [0,1] space. -/
structure NormalizedRect where
  x : ℚ
  y : ℚ
  width : ℚ
  height : ℚ
deriving DecidableEq, Repr

structure Point where
  x : ℚ
  y : ℚ
deriving DecidableEq, Repr

structure Size where
  width : ℚ
  height : ℚ
deriving DecidableEq, Repr

/- The eight resize handles of the crop selection UI. -/
inductive ResizeHandle where
  | left
  | right
  | top
  | bottom
  | topLeft
  | topRight
  | bottomLeft
  | bottomRight
deriving DecidableEq, Repr

/-
`clampNumber(value, min, max)` from part_001.  The source first returns
`min` when `value` is `NaN`; rationals carry no `NaN`, so that branch lives
in `clampNumberE` below.  Then: if `min > max` return `min`, else
`Math.min(Math.max(value, min), max)`.
-/
def clampNumber (value lo hi : ℚ) : ℚ :=
  if lo > hi then lo else min (max value lo) hi

/-
`clampNumber` applied to a possibly-`NaN` value (`none` = `NaN`): the
source returns the lower bound for `NaN`.
-/
def clampNumberE (value : Option ℚ) (lo hi : ℚ) : ℚ :=
  match value with
  | none => lo
  | some v => clampNumber v lo hi

/- `clampRect(rect, minWidth, minHeight)` from part_001, line for line. -/
def clampRect (rect : NormalizedRect) (minWidth minHeight : ℚ) : NormalizedRect :=
  let width := max rect.width minWidth
  let height := max rect.height minHeight
  let x := clampNumber rect.x 0 (1 - width)
  let y := clampNumber rect.y 0 (1 - height)
  let x2 := if x + width > 1 then max 0 (1 - width) else x
  let y2 := if y + height > 1 then max 0 (1 - height) else y
  { x := x2
    y := y2
    width := clampNumber width minWidth 1
    height := clampNumber height minHeight 1 }

def isLeftHandle : ResizeHandle → Bool
  | .left => true
  | .topLeft => true
  | .bottomLeft => true
  | _ => false

def isRightHandle : ResizeHandle → Bool
  | .right => true
  | .topRight => true
  | .bottomRight => true
  | _ => false

def isTopHandle : ResizeHandle → Bool
  | .top => true
  | .topLeft => true
  | .topRight => true
  | _ => false

def isBottomHandle : ResizeHandle → Bool
  | .bottom => true
  | .bottomLeft => true
  | .bottomRight => true
  | _ => false

/-
`applyResize(initial, handle, deltaX, deltaY, minWidth, minHeight)` from
part_001.  The source mutates `{x, y, width, height}` through up to two of
four guarded blocks (the handle sets are pairwise exclusive per axis) and
finishes with `clampRect`; the sequential `let`s reproduce the mutation
order.
-/
def applyResize (initial : NormalizedRect) (handle : ResizeHandle)
    (deltaX deltaY minWidth minHeight : ℚ) : NormalizedRect :=
  let s0 := initial
  let s1 :=
    if isLeftHandle handle then
      let maxX := initial.x + initial.width - minWidth
      let nextX := clampNumber (initial.x + deltaX) 0 maxX
      { s0 with x := nextX, width := s0.width + (s0.x - nextX) }
    else s0
  let s2 :=
    if isRightHandle handle then
      { s1 with width := clampNumber (s1.width + deltaX) minWidth (1 - s1.x) }
    else s1
  let s3 :=
    if isTopHandle handle then
      let maxY := initial.y + initial.height - minHeight
      let nextY := clampNumber (initial.y + deltaY) 0 maxY
      { s2 with y := nextY, height := s2.height + (s2.y - nextY) }
    else s2
  let s4 :=
    if isBottomHandle handle then
      { s3 with height := clampNumber (s3.height + deltaY) minHeight (1 - s3.y) }
    else s3
  clampRect s4 minWidth minHeight

/-
`buildRectFromPoints(start, current, container, minWidth, minHeight)` from
part_001: pixel-space corners are sorted, grown to the minimum pixel size
toward the drag direction, normalized, and clamped.
-/
def buildRectFromPoints (start current : Point) (container : Size)
    (minWidth minHeight : ℚ) : NormalizedRect :=
  let sx := clampNumber start.x 0 container.width
  let sy := clampNumber start.y 0 container.height
  let cx := clampNumber current.x 0 container.width
  let cy := clampNumber current.y 0 container.height
  let left := min sx cx
  let right := max sx cx
  let top := min sy cy
  let bottom := max sy cy
  let minWidthPx := minWidth * container.width
  let minHeightPx := minHeight * container.height
  let lr :=
    if right - left < minWidthPx then
      if sx ≤ cx then (left, clampNumber (left + minWidthPx) 0 container.width)
      else (clampNumber (right - minWidthPx) 0 container.width, right)
    else (left, right)
  let tb :=
    if bottom - top < minHeightPx then
      if sy ≤ cy then (top, clampNumber (top + minHeightPx) 0 container.height)
      else (clampNumber (bottom - minHeightPx) 0 container.height, bottom)
    else (top, bottom)
  let normalized : NormalizedRect :=
    { x := lr.1 / container.width
      y := tb.1 / container.height
      width := (lr.2 - lr.1) / container.width
      height := (tb.2 - tb.1) / container.height }
  clampRect normalized minWidth minHeight

/- The invariant stated in the spec for every recomputed selection rect. -/
def validRect (r : NormalizedRect) (minWidth minHeight : ℚ) : Prop :=
  minWidth ≤ r.width ∧ minHeight ≤ r.height ∧ 0 ≤ r.x ∧ 0 ≤ r.y ∧
    r.x + r.width ≤ 1 ∧ r.y + r.height ≤ 1

/-
The pointer-interaction state recorded by the crop tool in
`interactionRef.current` at pointer-down: what kind of gesture is active,
the down-point, and (for move/resize) the rect captured at that moment.
-/
inductive Interaction where
  | create (origin : Point)
  | move (origin : Point) (initialRect : NormalizedRect)
  | resize (origin : Point) (initialRect : NormalizedRect) (handle : ResizeHandle)
deriving DecidableEq, Repr

/-
The rect recomputed by `handlePointerMove` in part_001 for an active
interaction.  `clientX`/`clientY` are the pointer coordinates relative to
the container (`event.clientX - rect.left`), possibly `NaN` (`none`).  The
source clamps them into the container box first (`clampNumber` sends `NaN`
to 0), guards the container size with `rect.width || 1`, and dispatches on
the interaction kind; every branch ends in `clampRect`.
-/
def recomputeRect (interaction : Interaction) (container : Size)
    (clientX clientY : Option ℚ) (minWidth minHeight : ℚ) : NormalizedRect :=
  let w := if container.width = 0 then 1 else container.width
  let h := if container.height = 0 then 1 else container.height
  let px := clampNumberE clientX 0 w
  let py := clampNumberE clientY 0 h
  match interaction with
  | .create origin =>
      buildRectFromPoints origin ⟨px, py⟩ ⟨w, h⟩ minWidth minHeight
  | .move origin initialRect =>
      let deltaX := (px - origin.x) / w
      let deltaY := (py - origin.y) / h
      clampRect
        { x := initialRect.x + deltaX
          y := initialRect.y + deltaY
          width := initialRect.width
          height := initialRect.height } minWidth minHeight
  | .resize origin initialRect handle =>
      let deltaX := (px - origin.x) / w
      let deltaY := (py - origin.y) / h
      applyResize initialRect handle deltaX deltaY minWidth minHeight

/- Classification of a pointer-down by the hit test in `handlePointerDown`. -/
inductive DownTarget where
  | onHandle (handle : ResizeHandle)
  | onBody
  | onEmpty
deriving DecidableEq, Repr

/-
One pointer event reaching the crop surface.  Down events carry real
coordinates; move events may carry `NaN` (`none`) coordinates.
-/
inductive PEvent where
  | down (target : DownTarget) (x y : ℚ)
  | move (x y : Option ℚ)
  | up
deriving DecidableEq, Repr

/- The two React refs the gesture code mutates: selection and interaction. -/
structure CropState where
  selection : Option NormalizedRect
  interaction : Option Interaction
deriving DecidableEq, Repr

/-
One step of the pointer state machine
(`handlePointerDown` / `handlePointerMove` / `handlePointerUp`).
Returns the new state together with the rect recomputed by this event, if
the event was a pointer-move that recomputed one.
-/
def stepEvent (container : Size) (minWidth minHeight : ℚ) (st : CropState) :
    PEvent → CropState × Option NormalizedRect
  | .down target x y =>
      match target, st.selection with
      | .onHandle handle, some sel =>
          ({ st with interaction := some (.resize ⟨x, y⟩ sel handle) }, none)
      | .onBody, some sel =>
          ({ st with interaction := some (.move ⟨x, y⟩ sel) }, none)
      | _, _ =>
          ({ selection := some
              { x := clampNumber (x / container.width) 0 1
                y := clampNumber (y / container.height) 0 1
                width := 0
                height := 0 }
             interaction := some (.create ⟨x, y⟩) }, none)
  | .move cx cy =>
      match st.interaction with
      | none => (st, none)
      | some inter =>
          match inter with
          | .create _ =>
              let r := recomputeRect inter container cx cy minWidth minHeight
              ({ st with selection := some r }, some r)
          | _ =>
              -- the source bails out (`if (!selection) return`) when no
              -- selection exists before a move/resize recompute
              match st.selection with
              | none => (st, none)
              | some _ =>
                  let r := recomputeRect inter container cx cy minWidth minHeight
                  ({ st with selection := some r }, some r)
  | .up => ({ st with interaction := none }, none)

/-
Run a list of pointer events, collecting every rect recomputed by a
pointer-move along the way.
-/
def runEvents (container : Size) (minWidth minHeight : ℚ) (st : CropState) :
    List PEvent → CropState × List NormalizedRect
  | [] => (st, [])
  | e :: rest =>
      let step := stepEvent container minWidth minHeight st e
      let tail := runEvents container minWidth minHeight step.1 rest
      (tail.1, step.2.toList ++ tail.2)

/- ## Audio buffer utilities (part_001, part_002, blend-tracks-tool) -/

/- JavaScript `Math.round`: round half toward positive infinity. -/
def jsRound (x : ℚ) : ℤ := ⌊x + 1/2⌋

/-
A decoded Web-Audio `AudioBuffer`: a sample rate, a frame count, and one
PCM data array per channel (`getChannelData`).  `numberOfChannels` is the
number of channel arrays.
-/
structure AudioBuffer where
  sampleRate : ℚ
  length : ℕ
  channels : List (List ℚ)
deriving DecidableEq, Repr

def AudioBuffer.numberOfChannels (b : AudioBuffer) : ℕ := b.channels.length

/- `buffer.getChannelData(ch)` (empty when the channel does not exist). -/
def channelData (b : AudioBuffer) (ch : ℕ) : List ℚ := b.channels.getD ch []

/-
`matchAudioDuration(buffer, targetDuration)` from part_001: compute
`targetLength = Math.max(1, Math.round(sampleRate * targetDuration))`,
return the buffer unchanged when the length already matches, otherwise
copy `min(source, target)` frames per channel and zero-fill the rest.
-/
def matchAudioDuration (buffer : AudioBuffer) (targetDuration : ℚ) : AudioBuffer :=
  let sampleRate := buffer.sampleRate
  let sourceLength := buffer.length
  let channelCount := buffer.numberOfChannels
  let targetLength : ℕ := (max 1 (jsRound (sampleRate * targetDuration))).toNat
  if targetLength = sourceLength then buffer
  else
    { sampleRate := sampleRate
      length := targetLength
      channels := (List.range channelCount).map (fun ch =>
        let sourceData := channelData buffer ch
        let sourceFrames := sourceData.length
        (List.range targetLength).map (fun i =>
          if i < sourceFrames then sourceData.getD i 0 else 0)) }

namespace ReplaceAudio

/-
`matchAudioDuration(buffer, targetDuration)` from part_002: identical to
the part_001 version except that it always allocates a fresh buffer, even
when `targetLength` already equals the source length.
-/
def matchAudioDuration (buffer : AudioBuffer) (targetDuration : ℚ) : AudioBuffer :=
  let sampleRate := buffer.sampleRate
  let targetLength : ℕ := (max 1 (jsRound (sampleRate * targetDuration))).toNat
  { sampleRate := sampleRate
    length := targetLength
    channels := (List.range buffer.numberOfChannels).map (fun ch =>
      let sourceData := channelData buffer ch
      let sourceFrames := sourceData.length
      (List.range targetLength).map (fun i =>
        if i < sourceFrames then sourceData.getD i 0 else 0)) }

end ReplaceAudio

/-
One mixed sample read: `channel < numberOfChannels ? getChannelData(channel) : null`
and `primaryChannel && index < primaryChannel.length ? primaryChannel[index] : 0`.
-/
def channelSample (b : AudioBuffer) (ch i : ℕ) : ℚ :=
  if ch < b.numberOfChannels then (channelData b ch).getD i 0 else 0

/-
The first loop nest of `mixAudioBuffers` in blend-tracks-tool: the mixed
(pre-normalization) channel data,
`mixedSample = sampleA * primaryGain + sampleB * secondaryGain`.
-/
def mixedRawChannels (primary secondary : AudioBuffer)
    (primaryGain secondaryGain : ℚ) : List (List ℚ) :=
  let channelCount := max primary.numberOfChannels secondary.numberOfChannels
  let frameCount := min primary.length secondary.length
  (List.range channelCount).map (fun ch =>
    (List.range frameCount).map (fun i =>
      channelSample primary ch i * primaryGain + channelSample secondary ch i * secondaryGain))

/-
The running `peak` accumulated over the same iteration order (channels
outer, frames inner), starting from 0.
-/
def peakOf (channels : List (List ℚ)) : ℚ :=
  channels.foldl (fun acc data => data.foldl (fun acc2 v => max acc2 (abs v)) acc) 0

/-
`mixAudioBuffers(primary, secondary, primaryGain, secondaryGain)` from
blend-tracks-tool: throws when the sample rates differ; otherwise mixes
into `max` channels and `min` frames, then rescales every sample by
`1 / peak` when `peak > 1`.
-/
def mixAudioBuffers (primary secondary : AudioBuffer)
    (primaryGain secondaryGain : ℚ) : Except String AudioBuffer :=
  if secondary.sampleRate ≠ primary.sampleRate then
    .error "Both tracks must share the same sample rate."
  else
    let frameCount := min primary.length secondary.length
    let raw := mixedRawChannels primary secondary primaryGain secondaryGain
    let peak := peakOf raw
    let final :=
      if peak > 1 then raw.map (fun data => data.map (fun v => v * (1 / peak)))
      else raw
    .ok { sampleRate := primary.sampleRate, length := frameCount, channels := final }

/- ## Dimension normalization (resize-video-tool `ensureEven`, part_001
`ensureEvenWithinBounds`).  All intermediate values stay at least 2, so
the Lean `emod` agrees with the JS `%` at every use.  The sequential
statements of `ensureEvenWithinBounds` are embedded as one named function
per mutation of `next`, composed in source order. -/

/-
`ensureEven(value)` from resize-video-tool:
`next = Math.max(2, Math.round(value))`, and an odd `next` is decremented
(or floored at 2).
-/
def ensureEven (value : ℚ) : ℤ :=
  let next := max 2 (jsRound value)
  if next % 2 ≠ 0 then (if next > 2 then next - 1 else 2) else next

/- `let next = Math.max(2, Math.round(value)); if (next > maxInt) next = maxInt`. -/
def clampToBound (k M : ℤ) : ℤ :=
  let n1 := max 2 k
  if n1 > M then M else n1

/- `if (next % 2 !== 0) { if (next < maxInt) next += 1 else next -= 1 }`. -/
def fixParity (n2 M : ℤ) : ℤ :=
  if n2 % 2 ≠ 0 then (if n2 < M then n2 + 1 else n2 - 1) else n2

/- `if (next > maxInt) { const evenMax = maxInt - (maxInt % 2); next = evenMax >= 2 ? evenMax : 2 }`. -/
def overshootFix (n3 M : ℤ) : ℤ :=
  if n3 > M then
    let evenMax := M - M % 2
    if 2 ≤ evenMax then evenMax else 2
  else n3

/- `if (next % 2 !== 0) next = Math.max(2, next - 1)`. -/
def lateParityFix (n4 : ℤ) : ℤ :=
  if n4 % 2 ≠ 0 then max 2 (n4 - 1) else n4

/- `if (next > maxInt) next = Math.max(2, maxInt - (maxInt % 2))`. -/
def lateBoundFix (n5 M : ℤ) : ℤ :=
  if n5 > M then max 2 (M - M % 2) else n5

/-
`ensureEvenWithinBounds(value, max)` from part_001: `maxInt =
Math.floor(max)`; fail when `maxInt < 2`; then the statement
sequence (round/clamp, parity fix, overshoot fix, the two re-checks), with
a thrown error modelled as `Except.error`.
-/
def ensureEvenWithinBounds (value bound : ℚ) : Except String ℤ :=
  let maxInt := ⌊bound⌋
  if maxInt < 2 then .error "Selected crop is too small for AVC encoding."
  else
    let n4 := overshootFix (fixParity (clampToBound (jsRound value) maxInt) maxInt) maxInt
    if n4 < 2 then .error "Selected crop is too small for AVC encoding."
    else
      let n6 := lateBoundFix (lateParityFix n4) maxInt
      if n6 < 2 then .error "Selected crop is too small for AVC encoding."
      else .ok n6

/- ## Samples, speed change (speed-control-tool), merge (part_001 `mergeVideos`) -/

/-
A timestamped media sample: start timestamp and duration in seconds.
Mediabunny samples carry payload too, but no claim depends on it.
-/
structure Sample where
  timestamp : ℚ
  duration : ℚ
deriving DecidableEq, Repr

/-
The video loop of `convert` in speed-control-tool: every sample is cloned
with `newTimestamp = timestamp / effectiveSpeed` and
`duration / effectiveSpeed`.
-/
def speedAdjustVideo (samples : List Sample) (speed : ℚ) : List Sample :=
  samples.map (fun s => { timestamp := s.timestamp / speed, duration := s.duration / speed })

/-
The audio loop of `convert` in speed-control-tool: only
`newTimestamp = timestamp / effectiveSpeed` is set; audio samples expose no
setDuration, so the written sample carries just the timestamp and its
duration is derived implicitly from consecutive timestamps.
-/
def speedAdjustAudio (samples : List Sample) (speed : ℚ) : List ℚ :=
  samples.map (fun s => s.timestamp / speed)

/- Timestamp rebasing: `adjusted.setTimestamp(sample.timestamp + currentTimestamp)`. -/
def rebase (cursor : ℚ) (s : Sample) : Sample :=
  { timestamp := s.timestamp + cursor, duration := s.duration }

/-
`lastVideoTimestamp = Math.max(lastVideoTimestamp, sample.timestamp + sample.duration)`
accumulated over the video samples of a clip, starting at 0: the measured
span.
-/
def clipSpan (video : List Sample) : ℚ :=
  video.foldl (fun acc s => max acc (s.timestamp + s.duration)) 0

/-
The audio samples actually delivered for one clip before an optional
decode/transfer failure (`failed = true` models the `catch` arm being
entered after `delivered` samples were already added).
-/
structure AudioDrain where
  delivered : List Sample
  failed : Bool
deriving DecidableEq, Repr

/-
One input clip of a merge job as the assembler sees it: its (possibly
resize-normalized) video sample sequence (`none` = the container has no
video track), a flag for an engine failure while decoding/adding its video
samples (which the try/catch of the source lets escape to the top), and its
audio track drain (`none` = no audio track).
-/
structure Clip where
  video : Option (List Sample)
  videoError : Bool
  audio : Option AudioDrain
deriving DecidableEq, Repr

def clipVideo (c : Clip) : List Sample := c.video.getD []

/- The assembler state: timeline cursor and the two output tracks. -/
structure MergeState where
  cursor : ℚ
  videoOut : List Sample
  audioOut : List Sample
deriving DecidableEq, Repr

/-
One iteration of the merge loop after the video checks: write every video
sample rebased by the cursor, write the delivered audio samples rebased by
the same cursor (audio failure is swallowed, so only the delivered prefix
lands), then advance the cursor by the measured span of the clip.
-/
def processClip (st : MergeState) (c : Clip) (vs : List Sample) : MergeState :=
  let written := vs.map (rebase st.cursor)
  let audioWritten :=
    match c.audio with
    | none => []
    | some drain => drain.delivered.map (rebase st.cursor)
  { cursor := st.cursor + clipSpan vs
    videoOut := st.videoOut ++ written
    audioOut := st.audioOut ++ audioWritten }

/-
The per-clip loop of `mergeVideos`: a clip without a video track or with a
failing video operation aborts the whole job (`Except.error`); audio
failures never do.
-/
def mergeLoop (st : MergeState) : List Clip → Except String MergeState
  | [] => .ok st
  | c :: rest =>
      match c.video with
      | none => .error "missing video track"
      | some vs =>
          if c.videoError then .error "video processing failed"
          else mergeLoop (processClip st c vs) rest

/-
`mergeVideos` from part_001: the loading loop first throws if any selected
file lacks a video track, then the clips are drained in order starting from
cursor 0.  `Except.ok` is the finalized output (`output.finalize()` runs
only after the loop); `Except.error` is the aborted, unfinalized job.
-/
def mergeVideos (clips : List Clip) : Except String MergeState :=
  if clips.all (fun c => c.video.isSome) then
    mergeLoop { cursor := 0, videoOut := [], audioOut := [] } clips
  else .error "a selected video does not contain a video track"

/-
The expected video output of a merge: the samples of each clip rebased by
the cursor current at that clip, the cursor advancing by the span of the
clip.
-/
def rebasedConcat (cursor : ℚ) : List Clip → List Sample
  | [] => []
  | c :: rest =>
      (clipVideo c).map (rebase cursor) ++
        rebasedConcat (cursor + clipSpan (clipVideo c)) rest

/- The measured video spans of the clips, in order. -/
def spans (clips : List Clip) : List ℚ :=
  clips.map (fun c => clipSpan (clipVideo c))

lemma le_clampNumber (v lo hi : ℚ) : lo ≤ clampNumber v lo hi := by
  unfold clampNumber
  split_ifs with h
  · exact le_refl lo
  · exact le_min (le_max_right _ _) (not_lt.mp h)

lemma clampNumber_le_right (v lo hi : ℚ) (h : lo ≤ hi) : clampNumber v lo hi ≤ hi := by
  unfold clampNumber
  rw [if_neg (not_lt.mpr h)]
  exact min_le_right _ _

lemma clampRect_valid (r : NormalizedRect) (minW minH : ℚ)
    (hW : minW ≤ 1) (hH : minH ≤ 1) :
    validRect (clampRect r minW minH) minW minH := by
  simp only [clampRect, validRect]
  set w1 := max r.width minW with hw1def
  set h1 := max r.height minH with hh1def
  have hw1 : minW ≤ w1 := le_max_right _ _
  have hh1 : minH ≤ h1 := le_max_right _ _
  set x1 := clampNumber r.x 0 (1 - w1) with hx1def
  set y1 := clampNumber r.y 0 (1 - h1) with hy1def
  have hx1 : 0 ≤ x1 := le_clampNumber _ _ _
  have hy1 : 0 ≤ y1 := le_clampNumber _ _ _
  have hwf_le_one : clampNumber w1 minW 1 ≤ 1 := clampNumber_le_right _ _ _ hW
  have hhf_le_one : clampNumber h1 minH 1 ≤ 1 := clampNumber_le_right _ _ _ hH
  have hwf_le_w1 : clampNumber w1 minW 1 ≤ w1 := by
    unfold clampNumber
    rw [if_neg (not_lt.mpr hW)]
    calc min (max w1 minW) 1 ≤ max w1 minW := min_le_left _ _
    _ = w1 := max_eq_left hw1
  have hhf_le_h1 : clampNumber h1 minH 1 ≤ h1 := by
    unfold clampNumber
    rw [if_neg (not_lt.mpr hH)]
    calc min (max h1 minH) 1 ≤ max h1 minH := min_le_left _ _
    _ = h1 := max_eq_left hh1
  refine ⟨le_clampNumber _ _ _, le_clampNumber _ _ _, ?_, ?_, ?_, ?_⟩
  · split_ifs with h
    · exact le_max_left _ _
    · exact hx1
  · split_ifs with h
    · exact le_max_left _ _
    · exact hy1
  · split_ifs with h
    · rcases le_total w1 1 with hle | hgt
      · -- if w1 ≤ 1 the clamp already forced x1 + w1 ≤ 1: contradiction with h
        have : x1 ≤ 1 - w1 := by
          rw [hx1def]
          exact clampNumber_le_right _ _ _ (by linarith)
        linarith
      · have : max 0 (1 - w1) = 0 := max_eq_left (by linarith)
        rw [this]
        linarith
    · push_neg at h
      linarith
  · split_ifs with h
    · rcases le_total h1 1 with hle | hgt
      · have : y1 ≤ 1 - h1 := by
          rw [hy1def]
          exact clampNumber_le_right _ _ _ (by linarith)
        linarith
      · have : max 0 (1 - h1) = 0 := max_eq_left (by linarith)
        rw [this]
        linarith
    · push_neg at h
      linarith

lemma recomputeRect_valid (interaction : Interaction) (container : Size)
    (clientX clientY : Option ℚ) (minW minH : ℚ) (hW : minW ≤ 1) (hH : minH ≤ 1) :
    validRect (recomputeRect interaction container clientX clientY minW minH) minW minH := by
  cases interaction with
  | create origin =>
      simp only [recomputeRect, buildRectFromPoints]
      exact clampRect_valid _ _ _ hW hH
  | move origin initialRect =>
      simp only [recomputeRect]
      exact clampRect_valid _ _ _ hW hH
  | resize origin initialRect handle =>
      simp only [recomputeRect, applyResize]
      exact clampRect_valid _ _ _ hW hH

lemma stepEvent_valid (container : Size) (minW minH : ℚ) (st : CropState)
    (e : PEvent) (r : NormalizedRect) (hW : minW ≤ 1) (hH : minH ≤ 1)
    (hr : (stepEvent container minW minH st e).2 = some r) :
    validRect r minW minH := by
  cases e with
  | down target x y =>
      cases target <;> cases hsel : st.selection <;>
        simp [stepEvent, hsel] at hr
  | move cx cy =>
      cases hint : st.interaction with
      | none => simp [stepEvent, hint] at hr
      | some inter =>
          cases inter with
          | create origin =>
              simp only [stepEvent, hint] at hr
              cases hr
              exact recomputeRect_valid _ _ _ _ _ _ hW hH
          | move origin initialRect =>
              cases hsel : st.selection with
              | none => simp [stepEvent, hint, hsel] at hr
              | some sel =>
                  simp only [stepEvent, hint, hsel] at hr
                  cases hr
                  exact recomputeRect_valid _ _ _ _ _ _ hW hH
          | resize origin initialRect handle =>
              cases hsel : st.selection with
              | none => simp [stepEvent, hint, hsel] at hr
              | some sel =>
                  simp only [stepEvent, hint, hsel] at hr
                  cases hr
                  exact recomputeRect_valid _ _ _ _ _ _ hW hH
  | up => simp [stepEvent] at hr

lemma runEvents_valid (container : Size) (minW minH : ℚ) (st : CropState)
    (events : List PEvent) (hW : minW ≤ 1) (hH : minH ≤ 1) :
    ∀ r ∈ (runEvents container minW minH st events).2, validRect r minW minH := by
  induction events generalizing st with
  | nil => intro r hr; simp [runEvents] at hr
  | cons e rest ih =>
      intro r hr
      simp only [runEvents, List.mem_append] at hr
      rcases hr with hr | hr
      · rcases hstep : (stepEvent container minW minH st e).2 with _ | r2
        · rw [hstep] at hr; simp at hr
        · rw [hstep] at hr
          simp only [Option.toList_some, List.mem_singleton] at hr
          subst hr
          exact stepEvent_valid container minW minH st e r hW hH hstep
      · exact ih _ _ hr

lemma clampNumberE_none_zero (hi : ℚ) :
    clampNumberE none 0 hi = clampNumberE (some 0) 0 hi := by
  simp only [clampNumberE, clampNumber]
  split_ifs with hlt
  · rfl
  · rw [max_self]
    exact (min_eq_left (not_lt.mp hlt)).symm

/-- C2: for every starting selection rect and every finite sequence of
create, move, and resize pointer interactions with minimum ratios
`minWidth, minHeight ≤ 1`, each rect recomputed on pointer-move satisfies
`width ≥ minWidth`, `height ≥ minHeight`, `x ≥ 0`, `y ≥ 0`,
`x + width ≤ 1` and `y + height ≤ 1`. -/
theorem crop_rect_invariant (container : Size) (minW minH : ℚ) (st : CropState)
    (events : List PEvent) (hW : minW ≤ 1) (hH : minH ≤ 1) :
    ∀ r ∈ (runEvents container minW minH st events).2, validRect r minW minH :=
  runEvents_valid container minW minH st events hW hH

/-- Witness for C2: a concrete body-drag of the selection
`(0, 0, 1/2, 1/2)` inside a unit container recomputes the rect
`(1/4, 1/4, 1/2, 1/2)`, which satisfies the clamp invariant. -/
theorem crop_rect_invariant_witness :
    validRect ⟨1/4, 1/4, 1/2, 1/2⟩ (1/10) (1/10) :=
  crop_rect_invariant ⟨1, 1⟩ (1/10) (1/10)
    ⟨some ⟨0, 0, 1/2, 1/2⟩, none⟩
    [.down .onBody 0 0, .move (some (1/4)) (some (1/4)), .up]
    (by norm_num) (by norm_num) ⟨1/4, 1/4, 1/2, 1/2⟩
    (by norm_num [runEvents, stepEvent, recomputeRect, clampNumberE, clampNumber, clampRect])

/-- Counterexample to C9: a pointer-move with NaN coordinates is not a
zero-delta no-op.  `clampNumber` sends NaN to the lower bound 0, so the
pointer is treated as sitting at the container origin: moving the selection
`(1/2, 1/2, 1/5, 1/5)` from origin `(1/2, 1/2)` with NaN coordinates drags
it to `(0, 0, 1/5, 1/5)`, changing the current selection rect. -/
theorem crop_nan_not_noop :
    (stepEvent ⟨1, 1⟩ (1/10) (1/10)
        ⟨some ⟨1/2, 1/2, 1/5, 1/5⟩, some (.move ⟨1/2, 1/2⟩ ⟨1/2, 1/2, 1/5, 1/5⟩)⟩
        (.move none none)).1.selection ≠ some ⟨1/2, 1/2, 1/5, 1/5⟩ := by
  norm_num [stepEvent, recomputeRect, clampNumberE, clampNumber, clampRect]

/-- C9 amended: a pointer-move with invalid/NaN coordinates never raises an
error and still produces a rect satisfying the clamp invariant, but it is
not a no-op: `clampNumber` maps NaN to the lower bound, so NaN coordinates
are handled exactly like a pointer at the container origin (position 0),
which can move the rect. -/
theorem crop_nan_recompute_total (interaction : Interaction) (container : Size)
    (cx cy : Option ℚ) (minW minH : ℚ) (hW : minW ≤ 1) (hH : minH ≤ 1) :
    validRect (recomputeRect interaction container cx cy minW minH) minW minH ∧
      recomputeRect interaction container none none minW minH =
        recomputeRect interaction container (some 0) (some 0) minW minH := by
  refine ⟨recomputeRect_valid _ _ _ _ _ _ hW hH, ?_⟩
  simp only [recomputeRect]
  rw [clampNumberE_none_zero, clampNumberE_none_zero]

/-- Witness for the amended C9 at a concrete move interaction with NaN
coordinates. -/
theorem crop_nan_recompute_total_witness :
    validRect (recomputeRect (Interaction.move ⟨1/2, 1/2⟩ ⟨1/2, 1/2, 1/5, 1/5⟩)
        ⟨1, 1⟩ none none (1/10) (1/10)) (1/10) (1/10) ∧
      recomputeRect (Interaction.move ⟨1/2, 1/2⟩ ⟨1/2, 1/2, 1/5, 1/5⟩)
          ⟨1, 1⟩ none none (1/10) (1/10) =
        recomputeRect (Interaction.move ⟨1/2, 1/2⟩ ⟨1/2, 1/2, 1/5, 1/5⟩)
          ⟨1, 1⟩ (some 0) (some 0) (1/10) (1/10) :=
  crop_nan_recompute_total _ _ none none _ _ (by norm_num) (by norm_num)

lemma rangeMap_getD {α : Type} (n : ℕ) (f : ℕ → α) (d : α) (i : ℕ) (h : i < n) :
    ((List.range n).map f).getD i d = f i := by
  simp [List.getD, List.getElem?_map, List.getElem?_range, h]

lemma rangeMap_copy_self (data : List ℚ) (n : ℕ) (h : data.length = n) :
    (List.range n).map (fun i => if i < data.length then data.getD i 0 else 0) = data := by
  subst h
  apply List.ext_getElem
  · simp
  · intro i h1 h2
    simp only [List.getElem_map, List.getElem_range]
    rw [if_pos h2, List.getD_eq_getElem data 0 h2]

lemma matchAudioDuration_sampleRate (b : AudioBuffer) (d : ℚ) :
    (matchAudioDuration b d).sampleRate = b.sampleRate := by
  simp only [matchAudioDuration]
  split_ifs <;> rfl

lemma matchAudioDuration_length (b : AudioBuffer) (d : ℚ) :
    (matchAudioDuration b d).length = (max 1 (jsRound (b.sampleRate * d))).toNat := by
  simp only [matchAudioDuration]
  split_ifs with h
  · exact h.symm
  · rfl

lemma matchAudioDuration_channels_count (b : AudioBuffer) (d : ℚ) :
    (matchAudioDuration b d).numberOfChannels = b.numberOfChannels := by
  simp only [matchAudioDuration, AudioBuffer.numberOfChannels]
  split_ifs with h
  · rfl
  · simp

lemma matchAudioDuration_of_length_eq (b : AudioBuffer) (d : ℚ)
    (h : b.length = (max 1 (jsRound (b.sampleRate * d))).toNat) :
    matchAudioDuration b d = b := by
  simp only [matchAudioDuration]
  rw [if_pos h.symm]

lemma replace_matchAudioDuration_eq (b : AudioBuffer) (d : ℚ)
    (hwf : ∀ data ∈ b.channels, data.length = b.length) :
    ReplaceAudio.matchAudioDuration b d = matchAudioDuration b d := by
  simp only [ReplaceAudio.matchAudioDuration, matchAudioDuration]
  split_ifs with h
  · -- target length equals the source length: the fresh copy is the buffer itself
    cases b with
    | mk rate len chans =>
        dsimp only at h hwf ⊢
        rw [AudioBuffer.mk.injEq]
        refine ⟨rfl, h, ?_⟩
        apply List.ext_getElem
        · simp [AudioBuffer.numberOfChannels]
        · intro ch h1 h2
          simp only [AudioBuffer.numberOfChannels, List.length_map, List.length_range] at h1
          rw [List.getElem_map, List.getElem_range]
          have hmem : (channelData ⟨rate, len, chans⟩ ch) ∈ chans := by
            simp only [channelData]
            rw [List.getD_eq_getElem chans [] h2]
            exact List.getElem_mem h2
          have hlen : (channelData ⟨rate, len, chans⟩ ch).length =
              (max 1 (jsRound (rate * d))).toNat := by
            rw [hwf _ hmem]
            exact h.symm
          rw [rangeMap_copy_self _ _ hlen]
          simp only [channelData]
          rw [List.getD_eq_getElem chans [] h2]
  · rfl

lemma replace_matchAudioDuration_length (b : AudioBuffer) (d : ℚ) :
    (ReplaceAudio.matchAudioDuration b d).length =
      (max 1 (jsRound (b.sampleRate * d))).toNat := rfl

lemma replace_matchAudioDuration_sampleRate (b : AudioBuffer) (d : ℚ) :
    (ReplaceAudio.matchAudioDuration b d).sampleRate = b.sampleRate := rfl

lemma replace_matchAudioDuration_wf (b : AudioBuffer) (d : ℚ) :
    ∀ data ∈ (ReplaceAudio.matchAudioDuration b d).channels,
      data.length = (ReplaceAudio.matchAudioDuration b d).length := by
  intro data hd
  simp only [ReplaceAudio.matchAudioDuration] at hd ⊢
  rcases List.mem_map.mp hd with ⟨ch, hch, hdata⟩
  subst hdata
  simp

lemma matchAudioDuration_frame (b : AudioBuffer) (d : ℚ)
    (hwf : ∀ data ∈ b.channels, data.length = b.length)
    (ch : ℕ) (hch : ch < b.numberOfChannels) (i : ℕ)
    (hi : i < (matchAudioDuration b d).length) :
    (channelData (matchAudioDuration b d) ch).getD i 0 =
      if i < b.length then (channelData b ch).getD i 0 else 0 := by
  by_cases h : (max 1 (jsRound (b.sampleRate * d))).toNat = b.length
  · rw [matchAudioDuration_of_length_eq b d h.symm] at hi ⊢
    rw [if_pos hi]
  · rw [matchAudioDuration_length] at hi
    simp only [matchAudioDuration]
    rw [if_neg h]
    simp only [channelData]
    rw [rangeMap_getD _ _ _ ch hch, rangeMap_getD _ _ _ i hi]
    have hch2 : ch < b.channels.length := hch
    have hmem : channelData b ch ∈ b.channels := by
      simp only [channelData]
      rw [List.getD_eq_getElem b.channels [] hch2]
      exact List.getElem_mem hch2
    have hl : (b.channels.getD ch []).length = b.length := by
      have h2 := hwf _ hmem
      simpa [channelData] using h2
    rw [hl]

/-- C8: `matchAudioDuration` is idempotent.  Both implementations (the
part_001 one with the identity shortcut and the part_002 one without it)
satisfy `matchAudioDuration (matchAudioDuration b d) d =
matchAudioDuration b d` as buffer values (same length, channel count,
sample rate and per-frame contents). -/
theorem matchAudioDuration_idempotent (b : AudioBuffer) (d : ℚ) :
    matchAudioDuration (matchAudioDuration b d) d = matchAudioDuration b d ∧
      ReplaceAudio.matchAudioDuration (ReplaceAudio.matchAudioDuration b d) d =
        ReplaceAudio.matchAudioDuration b d := by
  constructor
  · apply matchAudioDuration_of_length_eq
    rw [matchAudioDuration_length, matchAudioDuration_sampleRate]
  · rw [replace_matchAudioDuration_eq (ReplaceAudio.matchAudioDuration b d) d
      (replace_matchAudioDuration_wf b d)]
    apply matchAudioDuration_of_length_eq
    rw [replace_matchAudioDuration_length, replace_matchAudioDuration_sampleRate]

/-- C10: `matchAudioDuration` is total over all target durations (including
zero and negative ones) and never produces an empty buffer: the target
length is `max(1, round(sampleRate * targetDuration))`, so the result
always has at least one frame.  Both implementations are covered; neither
has any failure path. -/
theorem matchAudioDuration_never_empty (b : AudioBuffer) (d : ℚ) :
    1 ≤ (matchAudioDuration b d).length ∧
      (matchAudioDuration b d).length = (max 1 (jsRound (b.sampleRate * d))).toNat ∧
      1 ≤ (ReplaceAudio.matchAudioDuration b d).length := by
  have h1 : (1:ℤ) ≤ max 1 (jsRound (b.sampleRate * d)) := le_max_left _ _
  refine ⟨?_, matchAudioDuration_length b d, ?_⟩
  · rw [matchAudioDuration_length]
    omega
  · rw [replace_matchAudioDuration_length]
    omega

/-- Counterexample to C5: the claim computes
`targetLength = round(sampleRate * targetSeconds)`, but the code computes
`max(1, round(sampleRate * targetSeconds))`.  At target duration 0 the
claimed length is `round(44100 * 0) = 0` while the code returns a buffer
of length 1. -/
theorem matchAudioDuration_round_counterexample :
    (matchAudioDuration ⟨44100, 5, [[1, 1, 1, 1, 1]]⟩ 0).length = 1 ∧
      jsRound ((44100 : ℚ) * 0) = 0 := by
  constructor
  · rw [matchAudioDuration_length]
    norm_num [jsRound]
  · norm_num [jsRound]

/-- C5 amended: `matchAudioDuration` computes
`targetLength = max(1, round(sampleRate * targetSeconds))` (the claimed
formula without the `max(1, _)` clamp fails at non-positive durations); if
`targetLength` equals the length of the buffer the original buffer is returned,
otherwise the result keeps the channel count and sample rate, copies the
first `min(source, target)` frames per channel and zero-fills the rest.
The part_002 implementation agrees with the part_001 one as a value. -/
theorem matchAudioDuration_spec (b : AudioBuffer) (d : ℚ)
    (hwf : ∀ data ∈ b.channels, data.length = b.length) :
    (matchAudioDuration b d).sampleRate = b.sampleRate ∧
      (matchAudioDuration b d).numberOfChannels = b.numberOfChannels ∧
      (matchAudioDuration b d).length = (max 1 (jsRound (b.sampleRate * d))).toNat ∧
      ((max 1 (jsRound (b.sampleRate * d))).toNat = b.length →
        matchAudioDuration b d = b) ∧
      (∀ ch, ch < b.numberOfChannels → ∀ i, i < (matchAudioDuration b d).length →
        (channelData (matchAudioDuration b d) ch).getD i 0 =
          if i < b.length then (channelData b ch).getD i 0 else 0) ∧
      ReplaceAudio.matchAudioDuration b d = matchAudioDuration b d :=
  ⟨matchAudioDuration_sampleRate b d, matchAudioDuration_channels_count b d,
    matchAudioDuration_length b d, fun h => matchAudioDuration_of_length_eq b d h.symm,
    fun ch hch i hi => matchAudioDuration_frame b d hwf ch hch i hi,
    replace_matchAudioDuration_eq b d hwf⟩

/-- Witness for the amended C5: a one-channel buffer of 2 frames at sample
rate 1 matched to 4 seconds has its frame at index 2 zero-filled. -/
theorem matchAudioDuration_spec_witness :
    (channelData (matchAudioDuration ⟨1, 2, [[3, 4]]⟩ 4) 0).getD 2 0 = 0 := by
  have hs := matchAudioDuration_spec ⟨1, 2, [[3, 4]]⟩ 4 (by
    intro data hd
    simp only [List.mem_singleton] at hd
    subst hd
    rfl)
  have hlen : (matchAudioDuration ⟨1, 2, [[3, 4]]⟩ 4).length = 4 := by
    rw [hs.2.2.1]
    norm_num [jsRound]
    decide
  have h := hs.2.2.2.2.1 0 (by norm_num [AudioBuffer.numberOfChannels]) 2
    (by rw [hlen]; norm_num)
  rw [h]
  norm_num

lemma le_peakFold (data : List ℚ) (acc : ℚ) :
    acc ≤ data.foldl (fun a v => max a (abs v)) acc := by
  induction data generalizing acc with
  | nil => simp
  | cons v rest ih =>
      calc acc ≤ max acc (abs v) := le_max_left _ _
      _ ≤ _ := ih _

lemma mem_le_peakFold (data : List ℚ) : ∀ (acc v : ℚ), v ∈ data →
    abs v ≤ data.foldl (fun a w => max a (abs w)) acc := by
  induction data with
  | nil =>
      intro acc v hv
      simp at hv
  | cons w rest ih =>
      intro acc v hv
      rcases List.mem_cons.mp hv with h | h
      · subst h
        calc abs v ≤ max acc (abs v) := le_max_right _ _
        _ ≤ _ := le_peakFold rest _
      · exact ih _ _ h

lemma le_peakOuter (chs : List (List ℚ)) (acc : ℚ) :
    acc ≤ chs.foldl (fun a data => data.foldl (fun a2 v => max a2 (abs v)) a) acc := by
  induction chs generalizing acc with
  | nil => simp
  | cons data rest ih =>
      calc acc ≤ data.foldl (fun a2 v => max a2 (abs v)) acc := le_peakFold data acc
      _ ≤ _ := ih _

lemma mem_le_peakOf (chs : List (List ℚ)) (data : List ℚ) (v : ℚ)
    (hd : data ∈ chs) (hv : v ∈ data) : abs v ≤ peakOf chs := by
  unfold peakOf
  have key : ∀ (l : List (List ℚ)), data ∈ l → ∀ acc : ℚ,
      abs v ≤ l.foldl (fun a w => w.foldl (fun a2 u => max a2 (abs u)) a) acc := by
    intro l
    induction l with
    | nil =>
        intro hmem
        simp at hmem
    | cons first rest ih =>
        intro hmem acc
        rcases List.mem_cons.mp hmem with h | h
        · subst h
          calc abs v ≤ data.foldl (fun a2 u => max a2 (abs u)) acc :=
                mem_le_peakFold data acc v hv
          _ ≤ _ := le_peakOuter rest _
        · exact ih h _
  exact key chs hd 0

lemma mixedRawChannels_getD (a b : AudioBuffer) (ga gb : ℚ) (ch i : ℕ)
    (hch : ch < max a.numberOfChannels b.numberOfChannels)
    (hi : i < min a.length b.length) :
    ((mixedRawChannels a b ga gb).getD ch []).getD i 0 =
      channelSample a ch i * ga + channelSample b ch i * gb := by
  simp only [mixedRawChannels]
  rw [rangeMap_getD _ _ _ ch hch, rangeMap_getD _ _ _ i hi]

lemma getD_map_list (l : List (List ℚ)) (f : ℚ → ℚ) (ch i : ℕ)
    (hch : ch < l.length) (hi : i < (l.getD ch []).length) :
    ((l.map (fun data => data.map f)).getD ch []).getD i 0 =
      f ((l.getD ch []).getD i 0) := by
  rw [List.getD_eq_getElem l [] hch] at hi ⊢
  rw [List.getD_eq_getElem (l.map (fun data => data.map f)) [] (by simpa using hch)]
  rw [List.getElem_map]
  rw [List.getD_eq_getElem _ 0 (by simpa using hi), List.getElem_map,
    List.getD_eq_getElem _ 0 hi]

lemma mixAudioBuffers_ok (a b : AudioBuffer) (ga gb : ℚ)
    (h : b.sampleRate = a.sampleRate) :
    mixAudioBuffers a b ga gb = .ok
      { sampleRate := a.sampleRate
        length := min a.length b.length
        channels :=
          if 1 < peakOf (mixedRawChannels a b ga gb) then
            (mixedRawChannels a b ga gb).map
              (fun data => data.map
                (fun v => v * (1 / peakOf (mixedRawChannels a b ga gb))))
          else mixedRawChannels a b ga gb } := by
  simp only [mixAudioBuffers]
  rw [if_neg (not_not_intro h)]

lemma mixAudioBuffers_err (a b : AudioBuffer) (ga gb : ℚ)
    (h : ¬b.sampleRate = a.sampleRate) :
    mixAudioBuffers a b ga gb = .error "Both tracks must share the same sample rate." := by
  simp only [mixAudioBuffers]
  rw [if_pos h]

lemma mixedRawChannels_length (a b : AudioBuffer) (ga gb : ℚ) :
    (mixedRawChannels a b ga gb).length = max a.numberOfChannels b.numberOfChannels := by
  simp [mixedRawChannels]

lemma mixedRawChannels_inner_length (a b : AudioBuffer) (ga gb : ℚ) :
    ∀ data ∈ mixedRawChannels a b ga gb, data.length = min a.length b.length := by
  intro data hd
  simp only [mixedRawChannels] at hd
  rcases List.mem_map.mp hd with ⟨ch, hch, hdata⟩
  subst hdata
  simp

/-- C4: `mixAudioBuffers` fails exactly when the two sample rates differ;
on success the output has `max` channel count and `min` frame count, its
pre-normalization samples are `a[i]*gainA + b[i]*gainB` with a missing
channel read as 0 (multiplying the post-normalization sample by the applied
peak factor recovers that raw value), and every output sample has absolute
value at most 1 — the exact-arithmetic form of "peak ≤ 1.0 + ε". -/
theorem mixAudioBuffers_spec (a b : AudioBuffer) (ga gb : ℚ) :
    ((mixAudioBuffers a b ga gb).isOk ↔ a.sampleRate = b.sampleRate) ∧
      ∀ out, mixAudioBuffers a b ga gb = .ok out →
        out.numberOfChannels = max a.numberOfChannels b.numberOfChannels ∧
        out.length = min a.length b.length ∧
        (∀ ch, ch < max a.numberOfChannels b.numberOfChannels →
          ∀ i, i < min a.length b.length →
            (channelData out ch).getD i 0 *
                (if 1 < peakOf (mixedRawChannels a b ga gb)
                 then peakOf (mixedRawChannels a b ga gb) else 1) =
              channelSample a ch i * ga + channelSample b ch i * gb) ∧
        ∀ data ∈ out.channels, ∀ v ∈ data, abs v ≤ 1 := by
  constructor
  · by_cases h : b.sampleRate = a.sampleRate
    · rw [mixAudioBuffers_ok a b ga gb h]
      exact iff_of_true rfl h.symm
    · rw [mixAudioBuffers_err a b ga gb h]
      exact iff_of_false (by simp [Except.isOk, Except.toBool]) (fun he => h he.symm)
  · intro out hout
    have hrate : b.sampleRate = a.sampleRate := by
      by_contra hne
      rw [mixAudioBuffers_err a b ga gb hne] at hout
      exact absurd hout (by simp)
    rw [mixAudioBuffers_ok a b ga gb hrate, Except.ok.injEq] at hout
    subst hout
    set raw := mixedRawChannels a b ga gb with hraw
    have hrawlen : raw.length = max a.numberOfChannels b.numberOfChannels :=
      mixedRawChannels_length a b ga gb
    have hrawinner : ∀ data ∈ raw, data.length = min a.length b.length :=
      mixedRawChannels_inner_length a b ga gb
    refine ⟨?_, rfl, ?_, ?_⟩
    · simp only [AudioBuffer.numberOfChannels]
      split_ifs with hpk
      · simpa using hrawlen
      · exact hrawlen
    · intro ch hch i hi
      have hrawval := mixedRawChannels_getD a b ga gb ch i hch hi
      rw [← hraw] at hrawval
      have hch2 : ch < raw.length := by
        rw [hrawlen]
        exact hch
      have hmemraw : raw.getD ch [] ∈ raw := by
        rw [List.getD_eq_getElem raw [] hch2]
        exact List.getElem_mem hch2
      have hi2 : i < (raw.getD ch []).length := by
        rw [hrawinner _ hmemraw]
        exact hi
      simp only [channelData]
      split_ifs with hpk
      · rw [getD_map_list raw _ ch i hch2 hi2]
        have hpk0 : peakOf raw ≠ 0 := by
          intro h0
          rw [h0] at hpk
          norm_num at hpk
        have hxp : ((raw.getD ch []).getD i 0 * (1 / peakOf raw)) * peakOf raw =
            (raw.getD ch []).getD i 0 := by
          field_simp
        rw [hxp]
        exact hrawval
      · rw [mul_one]
        exact hrawval
    · intro data hd v hv
      rcases lt_or_le 1 (peakOf raw) with hpk | hpk
      · rw [if_pos hpk] at hd
        rcases List.mem_map.mp hd with ⟨data0, hd0, hdata⟩
        subst hdata
        rcases List.mem_map.mp hv with ⟨v0, hv0, hval⟩
        subst hval
        have hb := mem_le_peakOf raw data0 v0 hd0 hv0
        have hpos : 0 < peakOf raw := lt_trans one_pos hpk
        have h1p : abs (1 / peakOf raw) = 1 / peakOf raw := abs_of_pos (by positivity)
        have habs : abs (v0 * (1 / peakOf raw)) = abs v0 * (1 / peakOf raw) := by
          rw [abs_mul, h1p]
        rw [habs]
        calc abs v0 * (1 / peakOf raw) ≤ peakOf raw * (1 / peakOf raw) :=
              mul_le_mul_of_nonneg_right hb (by positivity)
        _ = 1 := by field_simp
      · rw [if_neg (not_lt.mpr hpk)] at hd
        exact le_trans (mem_le_peakOf raw data v hd hv) hpk

/-- Witness for C4: mixing the one-frame buffers `[[2]]` and `[[1]]` with
unit gains gives raw sample 3, peak 3, normalized output `[[1]]`; the
applied theorem yields the peak bound for the output sample 1. -/
theorem mixAudioBuffers_spec_witness : abs ((1:ℚ)) ≤ 1 :=
  ((mixAudioBuffers_spec ⟨1, 1, [[2]]⟩ ⟨1, 1, [[1]]⟩ 1 1).2 ⟨1, 1, [[1]]⟩
    (by norm_num [mixAudioBuffers, mixedRawChannels, channelSample, channelData, peakOf,
      AudioBuffer.numberOfChannels, List.range_succ, max_def, min_def])).2.2.2
    [1] (by norm_num) 1 (by norm_num)

lemma n4_props (k M : ℤ) (hM : 2 ≤ M) :
    2 ≤ overshootFix (fixParity (clampToBound k M) M) M ∧
      overshootFix (fixParity (clampToBound k M) M) M ≤ M ∧
      overshootFix (fixParity (clampToBound k M) M) M % 2 = 0 ∧
      (M ≤ k → overshootFix (fixParity (clampToBound k M) M) M = M - M % 2) := by
  simp only [clampToBound, fixParity, overshootFix]
  split_ifs <;> omega

lemma late_fixes_id (n4 M : ℤ) (h2 : 2 ≤ n4) (h4 : n4 ≤ M) (heven : n4 % 2 = 0) :
    lateBoundFix (lateParityFix n4) M = n4 := by
  simp only [lateParityFix, lateBoundFix]
  split_ifs <;> omega

lemma ensureEvenWithinBounds_err (v m : ℚ) (h : ⌊m⌋ < 2) :
    ensureEvenWithinBounds v m =
      .error "Selected crop is too small for AVC encoding." := by
  simp only [ensureEvenWithinBounds]
  rw [if_pos h]

lemma ensureEvenWithinBounds_ok (v m : ℚ) (h : 2 ≤ ⌊m⌋) :
    ensureEvenWithinBounds v m =
      .ok (overshootFix (fixParity (clampToBound (jsRound v) ⌊m⌋) ⌊m⌋) ⌊m⌋) := by
  have hn4 := n4_props (jsRound v) ⌊m⌋ h
  simp only [ensureEvenWithinBounds]
  rw [if_neg (not_lt.mpr h), if_neg (not_lt.mpr hn4.1),
    late_fixes_id _ _ hn4.1 hn4.2.1 hn4.2.2.1, if_neg (not_lt.mpr hn4.1)]

/-- Counterexample to C6: dimension normalization does not round to the
NEAREST even integer.  For the requested value 5.1 `ensureEven` returns 4
(round to 5, then decrement the odd result), although the even integer 6
is strictly closer to 5.1. -/
theorem ensureEven_not_nearest :
    ensureEven (51/10) = 4 ∧ Even (6:ℤ) ∧
      abs ((6:ℚ) - 51/10) < abs ((4:ℚ) - 51/10) := by
  refine ⟨?_, by decide, by rw [abs_of_pos (by norm_num), abs_of_neg (by norm_num)]; norm_num⟩
  have hk : jsRound (51/10) = 5 := by
    norm_num [jsRound]
  norm_num [ensureEven, hk]

/-- C6 amended: `ensureEven` rounds to the nearest integer and forces
parity downward — the result is even, at least 2, and within one of the
rounded value (equal to it when even, one below when odd), so 1281x721
becomes 1280x720; it is not always the nearest even integer (5.1 maps to 4,
not 6).  `ensureEvenWithinBounds` fails exactly when `floor(bound) < 2`;
on success the result is even with `2 ≤ r ≤ floor(bound)`, and a value
whose rounding reaches the bound is clamped down to the largest even
integer that fits. -/
theorem dimension_normalization_spec :
    (∀ v : ℚ, Even (ensureEven v) ∧ 2 ≤ ensureEven v ∧
        (2 ≤ jsRound v → jsRound v - 1 ≤ ensureEven v ∧ ensureEven v ≤ jsRound v)) ∧
      ensureEven 1281 = 1280 ∧ ensureEven 721 = 720 ∧
      ∀ v m : ℚ, ((ensureEvenWithinBounds v m).isOk ↔ 2 ≤ ⌊m⌋) ∧
        ∀ r : ℤ, ensureEvenWithinBounds v m = .ok r →
          Even r ∧ 2 ≤ r ∧ r ≤ ⌊m⌋ ∧ (⌊m⌋ ≤ jsRound v → r = ⌊m⌋ - ⌊m⌋ % 2) := by
  refine ⟨?_, ?_, ?_, ?_⟩
  · intro v
    rw [Int.even_iff]
    simp only [ensureEven]
    generalize jsRound v = k
    split_ifs <;> refine ⟨by omega, by omega, fun hk => ⟨by omega, by omega⟩⟩
  · have hk : jsRound 1281 = 1281 := by
      norm_num [jsRound]
    norm_num [ensureEven, hk]
  · have hk : jsRound 721 = 721 := by
      norm_num [jsRound]
    norm_num [ensureEven, hk]
  · intro v m
    constructor
    · constructor
      · intro hok
        by_contra hlt
        push_neg at hlt
        rw [ensureEvenWithinBounds_err v m hlt] at hok
        simp [Except.isOk, Except.toBool] at hok
      · intro h
        rw [ensureEvenWithinBounds_ok v m h]
        rfl
    · intro r hr
      by_cases h : 2 ≤ ⌊m⌋
      · rw [ensureEvenWithinBounds_ok v m h, Except.ok.injEq] at hr
        subst hr
        have hn4 := n4_props (jsRound v) ⌊m⌋ h
        rw [Int.even_iff]
        exact ⟨hn4.2.2.1, hn4.1, hn4.2.1, hn4.2.2.2⟩
      · push_neg at h
        rw [ensureEvenWithinBounds_err v m h] at hr
        exact absurd hr (by simp)

/-- Witness for the amended C6: `ensureEvenWithinBounds 10 4` clamps the
requested 10 down into the bound 4 and returns the even value 4. -/
theorem dimension_normalization_spec_witness :
    Even (4:ℤ) ∧ (2:ℤ) ≤ 4 ∧ (4:ℤ) ≤ ⌊(4 : ℚ)⌋ ∧
      (⌊(4 : ℚ)⌋ ≤ jsRound 10 → (4:ℤ) = ⌊(4 : ℚ)⌋ - ⌊(4 : ℚ)⌋ % 2) :=
  (dimension_normalization_spec.2.2.2 10 4).2 4 (by
    rw [ensureEvenWithinBounds_ok 10 4 (by norm_num)]
    have hk : jsRound 10 = 10 := by
      norm_num [jsRound]
    norm_num [clampToBound, fixParity, overshootFix, hk])

lemma map_getD {α β : Type} (l : List α) (f : α → β) (d : β) (d2 : α) (i : ℕ)
    (h : i < l.length) : (l.map f).getD i d = f (l.getD i d2) := by
  rw [List.getD_eq_getElem _ _ (by simpa using h), List.getElem_map,
    List.getD_eq_getElem _ _ h]

/-- C7: with speed factor s, every video sample is written with timestamp
t/s and duration d/s; every audio sample is written with timestamp t/s and
no stored duration (its duration is implicit in consecutive timestamps, and
the implied gap also scales by 1/s); video and audio use the same rule, so
a video and an audio sample with equal source timestamps get equal written
timestamps. -/
theorem speed_change_spec (videoSamples audioSamples : List Sample) (speed : ℚ)
    (hs : 0 < speed) :
    (∀ i, i < videoSamples.length →
      (speedAdjustVideo videoSamples speed).getD i ⟨0, 0⟩ =
        { timestamp := (videoSamples.getD i ⟨0, 0⟩).timestamp / speed
          duration := (videoSamples.getD i ⟨0, 0⟩).duration / speed }) ∧
    (∀ i, i < audioSamples.length →
      (speedAdjustAudio audioSamples speed).getD i 0 =
        (audioSamples.getD i ⟨0, 0⟩).timestamp / speed) ∧
    (∀ i, i + 1 < audioSamples.length →
      (speedAdjustAudio audioSamples speed).getD (i + 1) 0 -
          (speedAdjustAudio audioSamples speed).getD i 0 =
        ((audioSamples.getD (i + 1) ⟨0, 0⟩).timestamp -
            (audioSamples.getD i ⟨0, 0⟩).timestamp) / speed) ∧
    (∀ v a : Sample, v.timestamp = a.timestamp →
      ((speedAdjustVideo [v] speed).getD 0 ⟨0, 0⟩).timestamp =
        (speedAdjustAudio [a] speed).getD 0 0) := by
  refine ⟨?_, ?_, ?_, ?_⟩
  · intro i hi
    simp only [speedAdjustVideo]
    rw [map_getD videoSamples _ _ ⟨0, 0⟩ i hi]
  · intro i hi
    simp only [speedAdjustAudio]
    rw [map_getD audioSamples _ _ ⟨0, 0⟩ i hi]
  · intro i hi
    simp only [speedAdjustAudio]
    rw [map_getD audioSamples _ _ ⟨0, 0⟩ (i + 1) hi,
      map_getD audioSamples _ _ ⟨0, 0⟩ i (by omega)]
    ring
  · intro v a hva
    simp [speedAdjustVideo, speedAdjustAudio, hva]

/-- Witness for C7: doubling speed on the single video sample (4, 1) writes
it at timestamp 2 with duration 1/2. -/
theorem speed_change_spec_witness :
    (speedAdjustVideo [⟨4, 1⟩] 2).getD 0 ⟨0, 0⟩ = ⟨2, 1/2⟩ := by
  have h := (speed_change_spec [⟨4, 1⟩] [⟨4, 1⟩] 2 (by norm_num)).1 0 (by norm_num)
  rw [h]
  norm_num [List.getD]

lemma le_clipSpan (vs : List Sample) (s : Sample) (hs : s ∈ vs) :
    s.timestamp + s.duration ≤ clipSpan vs := by
  unfold clipSpan
  have mono : ∀ (l : List Sample) (acc : ℚ),
      acc ≤ l.foldl (fun a t => max a (t.timestamp + t.duration)) acc := by
    intro l
    induction l with
    | nil => intro acc; simp
    | cons t rest ih =>
        intro acc
        calc acc ≤ max acc (t.timestamp + t.duration) := le_max_left _ _
        _ ≤ _ := ih _
  have main : ∀ (l : List Sample), s ∈ l → ∀ acc : ℚ,
      s.timestamp + s.duration ≤ l.foldl (fun a t => max a (t.timestamp + t.duration)) acc := by
    intro l
    induction l with
    | nil =>
        intro hmem
        simp at hmem
    | cons t rest ih =>
        intro hmem acc
        rcases List.mem_cons.mp hmem with h | h
        · subst h
          calc s.timestamp + s.duration ≤ max acc (s.timestamp + s.duration) := le_max_right _ _
          _ ≤ _ := mono rest _
        · exact ih h _
  exact main vs hs 0

lemma mergeLoop_ok (clips : List Clip) :
    ∀ st st2, mergeLoop st clips = .ok st2 →
      st2.cursor = st.cursor + (spans clips).sum ∧
      st2.videoOut = st.videoOut ++ rebasedConcat st.cursor clips := by
  induction clips with
  | nil =>
      intro st st2 h
      simp only [mergeLoop, Except.ok.injEq] at h
      subst h
      simp [spans, rebasedConcat]
  | cons c rest ih =>
      intro st st2 h
      cases hv : c.video with
      | none => simp [mergeLoop, hv] at h
      | some vs =>
          cases he : c.videoError with
          | true => simp [mergeLoop, hv, he] at h
          | false =>
              simp only [mergeLoop, hv, he, Bool.false_eq_true, if_false] at h
              obtain ⟨hc, hvo⟩ := ih _ _ h
              constructor
              · rw [hc]
                simp only [processClip, spans, List.map_cons, List.sum_cons, clipVideo, hv,
                  Option.getD_some]
                ring
              · rw [hvo]
                simp only [processClip, rebasedConcat, clipVideo, hv, Option.getD_some]
                rw [List.append_assoc]

lemma mergeLoop_isOk (clips : List Clip) : ∀ st,
    ((mergeLoop st clips).isOk = true ↔
      ∀ c ∈ clips, c.video.isSome = true ∧ c.videoError = false) := by
  induction clips with
  | nil =>
      intro st
      simp [mergeLoop, Except.isOk, Except.toBool]
  | cons c rest ih =>
      intro st
      simp only [mergeLoop]
      cases hv : c.video with
      | none =>
          simp [Except.isOk, Except.toBool, hv]
      | some vs =>
          cases he : c.videoError
          · simp only [Bool.false_eq_true, if_false, List.forall_mem_cons, hv, he, ih]
            simp
          · simp [Except.isOk, Except.toBool, he, List.forall_mem_cons]

lemma mergeVideos_ok_iff (clips : List Clip) :
    ((mergeVideos clips).isOk = true ↔
      ∀ c ∈ clips, c.video.isSome = true ∧ c.videoError = false) := by
  simp only [mergeVideos]
  split_ifs with hall
  · exact mergeLoop_isOk clips _
  · refine iff_of_false (by simp [Except.isOk, Except.toBool]) ?_
    intro hforall
    rw [List.all_eq_true] at hall
    exact hall fun c hc => (hforall c hc).1

lemma mergeVideos_ok (clips : List Clip) (st : MergeState)
    (h : mergeVideos clips = .ok st) :
    st.cursor = (spans clips).sum ∧ st.videoOut = rebasedConcat 0 clips := by
  simp only [mergeVideos] at h
  split_ifs at h with hall
  have h2 := mergeLoop_ok clips _ _ h
  simpa using h2

lemma rebasedConcat_getLast :
    ∀ (clips : List Clip) (lastClip : Clip) (lastSample : Sample),
      clips.getLast? = some lastClip →
      (clipVideo lastClip).getLast? = some lastSample →
      ∀ cur : ℚ, (rebasedConcat cur clips).getLast? =
        some (rebase (cur + ((spans clips).sum - clipSpan (clipVideo lastClip))) lastSample)
  | [], lastClip, lastSample, hlast, hsample => by simp at hlast
  | [c], lastClip, lastSample, hlast, hsample => by
      intro cur
      simp only [List.getLast?_singleton, Option.some.injEq] at hlast
      subst hlast
      simp only [rebasedConcat, List.append_nil]
      rw [List.getLast?_map, hsample]
      simp only [Option.map_some']
      congr 2
      simp only [spans, List.map_cons, List.map_nil, List.sum_cons, List.sum_nil]
      ring
  | c :: c2 :: rest, lastClip, lastSample, hlast, hsample => by
      intro cur
      have hlast2 : (c2 :: rest).getLast? = some lastClip := by
        rw [← List.getLast?_cons_cons]
        exact hlast
      have ih := rebasedConcat_getLast (c2 :: rest) lastClip lastSample hlast2 hsample
      have hne : rebasedConcat (cur + clipSpan (clipVideo c)) (c2 :: rest) ≠ [] := by
        intro hnil
        have h2 := ih (cur + clipSpan (clipVideo c))
        rw [hnil] at h2
        simp at h2
      rw [show rebasedConcat cur (c :: c2 :: rest) =
        List.map (rebase cur) (clipVideo c) ++
          rebasedConcat (cur + clipSpan (clipVideo c)) (c2 :: rest) from rfl]
      rw [List.getLast?_append_of_ne_nil _ hne, ih (cur + clipSpan (clipVideo c))]
      have harith : cur + clipSpan (clipVideo c) +
          ((spans (c2 :: rest)).sum - clipSpan (clipVideo lastClip)) =
          cur + ((spans (c :: c2 :: rest)).sum - clipSpan (clipVideo lastClip)) := by
        simp only [spans, List.map_cons, List.sum_cons]
        ring
      rw [harith]

lemma video_fields_eq (clips clips2 : List Clip)
    (h : clips.map (fun c => (c.video, c.videoError)) =
      clips2.map (fun c => (c.video, c.videoError))) :
    spans clips = spans clips2 ∧ ∀ cur : ℚ, rebasedConcat cur clips = rebasedConcat cur clips2 := by
  induction clips generalizing clips2 with
  | nil =>
      have h2 : clips2 = [] := by
        cases clips2 with
        | nil => rfl
        | cons c2 rest2 => simp at h
      subst h2
      exact ⟨rfl, fun cur => rfl⟩
  | cons c rest ih =>
      cases clips2 with
      | nil => simp at h
      | cons c2 rest2 =>
          simp only [List.map_cons, List.cons.injEq, Prod.mk.injEq] at h
          obtain ⟨⟨hv, he⟩, htail⟩ := h
          obtain ⟨hsp, hrc⟩ := ih rest2 htail
          constructor
          · simp only [spans, List.map_cons, clipVideo, hv]
            rw [show rest.map (fun c => clipSpan (c.video.getD [])) = spans rest from rfl,
              show rest2.map (fun c => clipSpan (c.video.getD [])) = spans rest2 from rfl, hsp]
          · intro cur
            simp only [rebasedConcat, clipVideo, hv]
            rw [hrc]

lemma forall_video_fields (clips clips2 : List Clip)
    (hmap : clips.map (fun c => (c.video, c.videoError)) =
      clips2.map (fun c => (c.video, c.videoError)))
    (hf : ∀ c ∈ clips, c.video.isSome = true ∧ c.videoError = false) :
    ∀ c2 ∈ clips2, c2.video.isSome = true ∧ c2.videoError = false := by
  intro c2 hc2
  have hmem : (c2.video, c2.videoError) ∈ clips2.map (fun c => (c.video, c.videoError)) :=
    List.mem_map_of_mem _ hc2
  rw [← hmap] at hmem
  rcases List.mem_map.mp hmem with ⟨c, hc, hpair⟩
  have h3 := hf c hc
  rw [Prod.mk.injEq] at hpair
  rw [← hpair.1, ← hpair.2]
  exact h3

/-- C1: on a successful merge the final cursor is the sum of the measured
clip spans, the written video track is exactly the samples of each clip
rebased by the cursor current at that clip (so the cursor advances by each
clip span in order), and when the last sample of the last clip covers the
end of that clip to within one frame interval Δ (with nonnegative
duration), the final written video timestamp equals the span sum within
Δ. -/
theorem mergeVideos_timeline (clips : List Clip) (st : MergeState) (Δ : ℚ)
    (lastClip : Clip) (lastSample : Sample)
    (hok : mergeVideos clips = .ok st)
    (hlast : clips.getLast? = some lastClip)
    (hsample : (clipVideo lastClip).getLast? = some lastSample)
    (hdur : 0 ≤ lastSample.duration)
    (hcover : clipSpan (clipVideo lastClip) ≤ lastSample.timestamp + Δ) :
    st.cursor = (spans clips).sum ∧
      st.videoOut = rebasedConcat 0 clips ∧
      ∃ w : Sample, st.videoOut.getLast? = some w ∧
        (spans clips).sum - Δ ≤ w.timestamp ∧ w.timestamp ≤ (spans clips).sum := by
  obtain ⟨hc, hv⟩ := mergeVideos_ok clips st hok
  refine ⟨hc, hv, ?_⟩
  rw [hv, rebasedConcat_getLast clips lastClip lastSample hlast hsample 0]
  have hmem : lastSample ∈ clipVideo lastClip :=
    List.mem_of_mem_getLast? (Option.mem_def.mpr hsample)
  have hspan := le_clipSpan _ _ hmem
  refine ⟨_, rfl, ?_, ?_⟩
  · simp only [rebase]
    linarith
  · simp only [rebase]
    linarith

/-- C3: audio is best-effort while video is mandatory.  A merge job
succeeds exactly when every clip has a video track and no per-clip video
operation fails — the audio fields (including per-clip audio decode
failures) never influence success; and two clip lists with identical video
data (one with failing audio, one without) produce identical video output
and identical final cursors, so an audio failure still writes the video of
that clip and still advances the cursor over its span.  On failure the result
is `Except.error` (a single surfaced error; the output is never
finalized). -/
theorem mergeVideos_audio_best_effort :
    (∀ clips : List Clip,
      ((mergeVideos clips).isOk = true ↔
        ∀ c ∈ clips, c.video.isSome = true ∧ c.videoError = false)) ∧
      ∀ clips clips2 : List Clip,
        clips.map (fun c => (c.video, c.videoError)) =
          clips2.map (fun c => (c.video, c.videoError)) →
        (mergeVideos clips).isOk = (mergeVideos clips2).isOk ∧
          ∀ st st2 : MergeState, mergeVideos clips = .ok st → mergeVideos clips2 = .ok st2 →
            st.videoOut = st2.videoOut ∧ st.cursor = st2.cursor := by
  refine ⟨mergeVideos_ok_iff, ?_⟩
  intro clips clips2 hmap
  constructor
  · have h1 := mergeVideos_ok_iff clips
    have h2 := mergeVideos_ok_iff clips2
    have hcond : (∀ c ∈ clips, c.video.isSome = true ∧ c.videoError = false) ↔
        ∀ c ∈ clips2, c.video.isSome = true ∧ c.videoError = false :=
      ⟨forall_video_fields clips clips2 hmap, forall_video_fields clips2 clips hmap.symm⟩
    have hiff := h1.trans (hcond.trans h2.symm)
    cases hx : (mergeVideos clips).isOk <;> cases hy : (mergeVideos clips2).isOk <;>
      simp_all
  · intro st st2 hok hok2
    obtain ⟨hc, hv⟩ := mergeVideos_ok clips st hok
    obtain ⟨hc2, hv2⟩ := mergeVideos_ok clips2 st2 hok2
    obtain ⟨hsp, hrc⟩ := video_fields_eq clips clips2 hmap
    exact ⟨by rw [hv, hv2, hrc 0], by rw [hc, hc2, hsp]⟩

/-- Witness for C3: a single clip whose audio drain fails still merges
successfully, and its success status matches the same clip with no audio
at all. -/
theorem mergeVideos_audio_best_effort_witness :
    (mergeVideos [⟨some [⟨0, 1⟩], false, some ⟨[], true⟩⟩]).isOk = true ∧
      (mergeVideos [⟨some [⟨0, 1⟩], false, some ⟨[], true⟩⟩]).isOk =
        (mergeVideos [⟨some [⟨0, 1⟩], false, none⟩]).isOk :=
  ⟨(mergeVideos_audio_best_effort.1 _).mpr (by
      intro c hc
      simp only [List.mem_singleton] at hc
      subst hc
      exact ⟨rfl, rfl⟩),
    (mergeVideos_audio_best_effort.2 _ _ rfl).1⟩

/-- Witness for C1: merging two one-sample clips of span 1 each gives final
cursor 2, video output `[(0,1), (1,1)]`, and a final written timestamp 1
within Δ = 1 of the span sum 2. -/
theorem mergeVideos_timeline_witness :
    ((⟨2, [⟨0, 1⟩, ⟨1, 1⟩], []⟩ : MergeState).cursor =
        (spans [⟨some [⟨0, 1⟩], false, none⟩, ⟨some [⟨0, 1⟩], false, none⟩]).sum) ∧
      ((⟨2, [⟨0, 1⟩, ⟨1, 1⟩], []⟩ : MergeState).videoOut =
        rebasedConcat 0 [⟨some [⟨0, 1⟩], false, none⟩, ⟨some [⟨0, 1⟩], false, none⟩]) ∧
      ∃ w : Sample,
        (⟨2, [⟨0, 1⟩, ⟨1, 1⟩], []⟩ : MergeState).videoOut.getLast? = some w ∧
        (spans [⟨some [⟨0, 1⟩], false, none⟩, ⟨some [⟨0, 1⟩], false, none⟩]).sum - 1 ≤
          w.timestamp ∧
        w.timestamp ≤ (spans [⟨some [⟨0, 1⟩], false, none⟩, ⟨some [⟨0, 1⟩], false, none⟩]).sum :=
  mergeVideos_timeline
    [⟨some [⟨0, 1⟩], false, none⟩, ⟨some [⟨0, 1⟩], false, none⟩]
    ⟨2, [⟨0, 1⟩, ⟨1, 1⟩], []⟩ 1 ⟨some [⟨0, 1⟩], false, none⟩ ⟨0, 1⟩
    (by norm_num [mergeVideos, mergeLoop, processClip, clipSpan, rebase, max_def])
    rfl rfl (by norm_num) (by norm_num [clipSpan, clipVideo, max_def])
